import Mathlib

/-!
Verification of the core of a burn-after-reading secret-sharing service:
the hex codec and AES-GCM envelope operations with PIN key wrapping
(src/lib/crypto.ts), the relay-store HTTP handlers backed by Redis
SETEX/GETDEL (the API route), and the receiver-side reveal flow
(src/components/ViewSecret.tsx).

JavaScript strings are modelled as lists of UTF-16 code units and byte
buffers as lists of naturals below 256.  The platform primitives that the
repository calls but does not implement (Web Crypto AES-GCM, PBKDF2,
raw key import and export, the Redis commands, Node randomUUID) are
modelled from their documented contracts; each such definition carries a
doc comment saying so.
-/

/-- JavaScript string, as its list of UTF-16 code units. -/
abbrev Str := List Nat

/-- Byte buffer (the contents of a Uint8Array or ArrayBuffer). -/
abbrev Bytes := List Nat

/-- Well-formed byte buffer: every element is an actual byte. -/
abbrev isBytes (l : Bytes) : Prop := ∀ b ∈ l, b < 256

/-- Code units that JavaScript treats as leading whitespace in parseInt
and in String.prototype.trim. -/
def jsWhitespace (c : Nat) : Bool :=
  c == 9 || c == 10 || c == 11 || c == 12 || c == 13 || c == 32 ||
  c == 160 || c == 8232 || c == 8233 || c == 65279

/-- Value of one hex digit character, if it is one (0-9, a-f, A-F). -/
def hexDigitVal (c : Nat) : Option Nat :=
  if 48 ≤ c ∧ c ≤ 57 then some (c - 48)
  else if 97 ≤ c ∧ c ≤ 102 then some (c - 87)
  else if 65 ≤ c ∧ c ≤ 70 then some (c - 55)
  else none

def hexDigitsLoop : List Nat → Nat → Nat
  | [], acc => acc
  | c :: cs, acc =>
    match hexDigitVal c with
    | some v => hexDigitsLoop cs (acc * 16 + v)
    | none => acc

/-- Value of the longest leading run of hex digits; none when there is no
digit at all (parseInt yields NaN then). -/
def hexDigitsHead : List Nat → Option Nat
  | [] => none
  | c :: cs =>
    match hexDigitVal c with
    | some v => some (hexDigitsLoop cs v)
    | none => none

/-- JavaScript parseInt(s, 16): skip whitespace, an optional sign, an
optional 0x or 0X marker, then read the longest run of hex digits,
ignoring anything after it; none models NaN. -/
def parseIntHex (s : Str) : Option Int :=
  let s1 := s.dropWhile jsWhitespace
  let signed : Bool × Str :=
    match s1 with
    | 43 :: rest => (false, rest)
    | 45 :: rest => (true, rest)
    | _ => (false, s1)
  let s2 : Str :=
    match signed.2 with
    | 48 :: 120 :: rest => rest
    | 48 :: 88 :: rest => rest
    | other => other
  (hexDigitsHead s2).map (fun v => if signed.1 then -(v : Int) else (v : Int))

/-- Store a parseInt result into a Uint8Array slot: NaN becomes 0 and any
other value is reduced mod 256 (the ToUint8 coercion). -/
def toUint8 (v : Option Int) : Nat :=
  match v with
  | none => 0
  | some n => (n % 256).toNat

def hexPairsBytes : Str → Bytes
  | c1 :: c2 :: rest => toUint8 (parseIntHex [c1, c2]) :: hexPairsBytes rest
  | _ => []

/-- hexToArrayBuffer from src/lib/crypto.ts.  The Uint8Array allocation of
the possibly fractional size hex.length / 2 truncates it (ToIndex since
ES2017), so an odd-length input yields a buffer of floor(n / 2) bytes and
the last loop iteration's out-of-bounds store of the lone trailing
character is a silent no-op; each two-character chunk goes through
parseInt with the NaN-to-zero coercion of a typed-array store.  The
function never fails: it truncates and coerces. -/
def hexToArrayBuffer (hex : Str) : Bytes :=
  hexPairsBytes hex

/-- Lowercase hex digit character for a value below 16, as produced by
Number.prototype.toString with radix 16. -/
def hexDigitChar (n : Nat) : Nat :=
  if n < 10 then 48 + n else 87 + n

/-- One byte as exactly two lowercase hex characters: toString(16)
followed by padStart(2, zero). -/
def byteToHex (b : Nat) : Str :=
  if b < 16 then [48, hexDigitChar b]
  else [hexDigitChar (b / 16), hexDigitChar (b % 16)]

/-- arrayBufferToHex from src/lib/crypto.ts. -/
def arrayBufferToHex (buffer : Bytes) : Str :=
  buffer.flatMap byteToHex

inductive HashAlg where
  | SHA256
  deriving DecidableEq

structure Pbkdf2Params where
  iterations : Nat
  hash : HashAlg
  length : Nat
  deriving DecidableEq

/-- Modelled from the spec: an opaque Web Crypto CryptoKey handle, which
src/lib/crypto.ts never inspects.  A key is either raw AES key material
(generateKey, importKey) or the PBKDF2 derivation of a pin and salt under
the parameters passed to deriveKey. -/
inductive KeyHandle where
  | raw (data : Bytes)
  | derived (params : Pbkdf2Params) (pin : Bytes) (salt : Bytes)
  deriving DecidableEq

/-- Big-endian four-byte encoding of a length below 2 ^ 32. -/
def len4 (n : Nat) : Bytes :=
  [n / 16777216 % 256, n / 65536 % 256, n / 256 % 256, n % 256]

def readLen4 : Bytes → Option (Nat × Bytes)
  | a :: b :: c :: d :: rest => some (((a * 256 + b) * 256 + c) * 256 + d, rest)
  | _ => none

def readChunk (n : Nat) (l : Bytes) : Option (Bytes × Bytes) :=
  if n ≤ l.length then some (l.take n, l.drop n) else none

def keyEnc : KeyHandle → Bytes
  | .raw data => 0 :: (len4 data.length ++ data)
  | .derived p pin salt =>
    1 :: (len4 p.iterations ++ len4 p.length ++ len4 pin.length ++ pin ++
      len4 salt.length ++ salt)

def parseKeyHandle (l : Bytes) : Option (KeyHandle × Bytes) :=
  match l with
  | 0 :: rest =>
    (readLen4 rest).bind fun nr =>
      (readChunk nr.1 nr.2).bind fun dr => some (.raw dr.1, dr.2)
  | 1 :: rest =>
    (readLen4 rest).bind fun a =>
      (readLen4 a.2).bind fun b =>
        (readLen4 b.2).bind fun c =>
          (readChunk c.1 c.2).bind fun d =>
            (readLen4 d.2).bind fun e =>
              (readChunk e.1 e.2).bind fun f =>
                some (.derived ⟨a.1, .SHA256, b.1⟩ d.1 f.1, f.2)
  | _ => none

def encTriple (key : KeyHandle) (iv : Bytes) (pt : Bytes) : Bytes :=
  keyEnc key ++ (len4 iv.length ++ (iv ++ pt))

def parseTriple (l : Bytes) : Option (KeyHandle × Bytes × Bytes) :=
  (parseKeyHandle l).bind fun kr =>
    (readLen4 kr.2).bind fun ir =>
      (readChunk ir.1 ir.2).bind fun ivpt =>
        some (kr.1, ivpt.1, ivpt.2)

/-- Modelled from the spec: AES-GCM encryption as an ideal authenticated
cipher.  The ciphertext-with-tag is a reversible encoding of key, nonce
and plaintext emitted twice; the redundant copy plays the role of the
authentication tag.  Decryption succeeds exactly on an honest ciphertext
presented with the same key and nonce, which is the AEAD contract the
specification assigns to the cipher engine. -/
def gcmEncrypt (key : KeyHandle) (iv : Bytes) (pt : Bytes) : Bytes :=
  encTriple key iv pt ++ encTriple key iv pt

/-- Modelled from the spec: AES-GCM decryption for the ideal cipher; none
models the OperationError that Web Crypto throws when the tag does not
verify, and no partial plaintext ever escapes. -/
def gcmDecrypt (key : KeyHandle) (iv : Bytes) (ct : Bytes) : Option Bytes :=
  if ct.length % 2 = 0 ∧ ct.take (ct.length / 2) = ct.drop (ct.length / 2) then
    (parseTriple (ct.take (ct.length / 2))).bind fun kvp =>
      if kvp.1 = key ∧ kvp.2.1 = iv then some kvp.2.2 else none
  else none

/-- generateKey from src/lib/crypto.ts; the 32 random bytes drawn by the
platform are passed explicitly. -/
def generateKey (randomBytes : Bytes) : KeyHandle := .raw randomBytes

/-- Modelled from the spec: Web Crypto exportKey in raw format yields the
key material; keys created non-extractable (the PIN-derived ones) cannot
be exported. -/
def subtleExportKey : KeyHandle → Option Bytes
  | .raw data => some data
  | .derived _ _ _ => none

/-- Modelled from the spec: Web Crypto importKey for raw AES key material
accepts only 16, 24 or 32 bytes of data and fails with a DataError on any
other length. -/
def subtleImportKey (data : Bytes) : Option KeyHandle :=
  if data.length = 16 ∨ data.length = 24 ∨ data.length = 32 then some (.raw data)
  else none

structure EncryptResult where
  encryptedHex : Str
  ivHex : Str
  deriving DecidableEq

/-- encrypt from src/lib/crypto.ts.  The fresh 12-byte nonce drawn by
getRandomValues is passed explicitly; TextEncoder output is the plaintext
byte list itself, so text is already a byte list here. -/
def encrypt (text : Bytes) (key : KeyHandle) (iv : Bytes) : EncryptResult :=
  { encryptedHex := arrayBufferToHex (gcmEncrypt key iv text)
    ivHex := arrayBufferToHex iv }

/-- deriveKeyFromPin from src/lib/crypto.ts: PBKDF2 with SHA-256, 100000
iterations and a 256-bit AES-GCM key as output. -/
def deriveKeyFromPin (pin : Bytes) (salt : Bytes) : KeyHandle :=
  .derived ⟨100000, .SHA256, 256⟩ pin salt

structure WrapResult where
  encryptedKeyHex : Str
  keyIvHex : Str
  saltHex : Str
  deriving DecidableEq, Inhabited

/-- encryptKeyWithPin from src/lib/crypto.ts; the random 16-byte salt and
12-byte key-wrap nonce are passed explicitly. -/
def encryptKeyWithPin (key : KeyHandle) (pin : Bytes) (salt : Bytes) (keyIv : Bytes) :
    Option WrapResult :=
  (subtleExportKey key).bind fun keyData =>
    some { encryptedKeyHex := arrayBufferToHex (gcmEncrypt (deriveKeyFromPin pin salt) keyIv keyData)
           keyIvHex := arrayBufferToHex keyIv
           saltHex := arrayBufferToHex salt }

inductive CryptoFailure where
  | authFailure
  | importFailure
  deriving DecidableEq

/-- Propagate a platform failure: a missing result becomes the thrown
error, a present one continues the computation. -/
def orFail {α : Type} (o : Option α) (e : CryptoFailure) : Except CryptoFailure α :=
  match o with
  | some a => .ok a
  | none => .error e

/-- Sequencing of throwing computations, as the JavaScript control flow
where the first thrown error aborts the function. -/
def exBind {α β : Type} (x : Except CryptoFailure α) (f : α → Except CryptoFailure β) :
    Except CryptoFailure β :=
  match x with
  | .ok a => f a
  | .error e => .error e

/-- decryptKeyWithPin from src/lib/crypto.ts: decode the hex inputs
(which never throws), re-derive the PIN key from the stored salt, decrypt
the wrapped key and bring it back in as a raw AES key. -/
def decryptKeyWithPin (encryptedKeyHex keyIvHex saltHex : Str) (pin : Bytes) :
    Except CryptoFailure KeyHandle :=
  exBind (orFail (gcmDecrypt (deriveKeyFromPin pin (hexToArrayBuffer saltHex))
      (hexToArrayBuffer keyIvHex) (hexToArrayBuffer encryptedKeyHex)) .authFailure)
    fun decryptedKeyData => orFail (subtleImportKey decryptedKeyData) .importFailure

/-- decryptWithKey from src/lib/crypto.ts; TextDecoder output is the byte
list itself. -/
def decryptWithKey (encryptedHex : Str) (key : KeyHandle) (ivHex : Str) :
    Except CryptoFailure Bytes :=
  orFail (gcmDecrypt key (hexToArrayBuffer ivHex) (hexToArrayBuffer encryptedHex)) .authFailure

structure SecretData where
  encryptedHex : Str
  ivHex : Str
  deriving DecidableEq

structure StoreEntry where
  ttl : Nat
  data : SecretData
  deriving DecidableEq

/-- Redis key space: an association list with at most one live entry per
id.  Values are kept as the structured payload the POST handler writes;
the JSON.stringify and JSON.parse pair on either side of the store is an
exact inverse on these two-field records. -/
abbrev Store := List (Str × StoreEntry)

def storeLookup (id : Str) : Store → Option StoreEntry
  | [] => none
  | (k, e) :: rest => if k = id then some e else storeLookup id rest

def storeErase (id : Str) : Store → Store
  | [] => []
  | (k, e) :: rest => if k = id then storeErase id rest else (k, e) :: storeErase id rest

/-- Modelled from the spec: the Redis SETEX command, a single atomic write
of value and time-to-live under the key. -/
def redisSetex (id : Str) (ttl : Nat) (data : SecretData) (st : Store) : Store :=
  (id, ⟨ttl, data⟩) :: storeErase id st

/-- Modelled from the spec: the Redis GETDEL command, one atomic
read-and-delete step; no interleaving can fall between the read and the
delete. -/
def redisGetdel (id : Str) (st : Store) : Option SecretData × Store :=
  match storeLookup id st with
  | some e => (some e.data, storeErase id st)
  | none => (none, st)

structure PostBody where
  encryptedHex : Option Str
  ivHex : Option Str
  ttlSeconds : Option Nat

inductive ApiResponse where
  | okId (id : Str)
  | okData (encryptedHex ivHex : Str)
  | badRequest
  | notFound
  deriving DecidableEq

/-- Falsy test the handlers apply to a possibly missing string field: an
absent field and the empty string are both falsy in JavaScript. -/
def falsyStr : Option Str → Bool
  | none => true
  | some s => s.isEmpty

/-- POST handler of the API route: validate the two hex fields, apply the
86400-second default when ttlSeconds is absent, draw a fresh id (passed
explicitly, from randomUUID) and SETEX the payload under it. -/
def POST (body : PostBody) (freshId : Str) (st : Store) : ApiResponse × Store :=
  let ttlSeconds := body.ttlSeconds.getD 86400
  if falsyStr body.encryptedHex || falsyStr body.ivHex then (.badRequest, st)
  else
    (.okId freshId,
      redisSetex freshId ttlSeconds ⟨body.encryptedHex.getD [], body.ivHex.getD []⟩ st)

/-- GET handler of the API route: a missing or empty id parameter is a
400, otherwise one atomic GETDEL decides between the payload and a 404. -/
def GET (idParam : Option Str) (st : Store) : ApiResponse × Store :=
  match idParam with
  | none => (.badRequest, st)
  | some id =>
    if id.isEmpty then (.badRequest, st)
    else
      match redisGetdel id st with
      | (some data, st2) => (.okData data.encryptedHex data.ivHex, st2)
      | (none, st2) => (.notFound, st2)

/-- Responses observed by n consume calls for the same id: each call is a
single atomic GETDEL step at the store, so an arbitrary interleaving of n
concurrent calls is exactly a serial run of n steps. -/
def consumeRun : Nat → Str → Store → List ApiResponse
  | 0, _, _ => []
  | n + 1, id, st =>
    let r := GET (some id) st
    r.1 :: consumeRun n id r.2

/-- JavaScript String.prototype.trim on a code-unit list. -/
def jsTrim (s : Str) : Str :=
  ((s.dropWhile jsWhitespace).reverse.dropWhile jsWhitespace).reverse

structure FragmentData where
  encryptedKeyHex : Str
  keyIvHex : Str
  saltHex : Str
  deriving DecidableEq, Inhabited

inductive RevealOutcome where
  | emptyPin
  | missingKey
  | notFoundMsg
  | wrongPin
  | generic
  | revealed (secret : Bytes)
  deriving DecidableEq

/-- handleReveal from src/components/ViewSecret.tsx.  The URL fragment is
passed already parsed, none standing for an absent or malformed key hash.
The function fetches from the API on every invocation and holds no cache
of a previously fetched ciphertext: its only inputs are the pin, the
fragment, the id and the current store.  The catch classification maps a
Web Crypto OperationError - an authentication failure in either decrypt
step - to the invalid-PIN message and every other thrown error to the
generic one. -/
def handleReveal (pin : Bytes) (fragment : Option FragmentData) (id : Str) (st : Store) :
    RevealOutcome × Store :=
  if (jsTrim pin).isEmpty then (.emptyPin, st)
  else
    match fragment with
    | none => (.missingKey, st)
    | some frag =>
      match GET (some id) st with
      | (.notFound, st2) => (.notFoundMsg, st2)
      | (.okData encryptedHex ivHex, st2) =>
        match decryptKeyWithPin frag.encryptedKeyHex frag.keyIvHex frag.saltHex pin with
        | .error .authFailure => (.wrongPin, st2)
        | .error _ => (.generic, st2)
        | .ok key =>
          match decryptWithKey encryptedHex key ivHex with
          | .ok secret => (.revealed secret, st2)
          | .error .authFailure => (.wrongPin, st2)
          | .error _ => (.generic, st2)
      | (_, st2) => (.generic, st2)

/-- Modelled from the spec: Node randomUUID forces the six version-4 and
variant bits of RFC 4122 onto the 16 random bytes it draws. -/
def uuidForce (b : Bytes) : Bytes :=
  (b.set 6 (b.getD 6 0 % 16 + 64)).set 8 (b.getD 8 0 % 64 + 128)

/-- Hex layout of a UUID: 8-4-4-4-12 hex digits joined by dashes (code
45). -/
def uuidFormat (b : Bytes) : Str :=
  arrayBufferToHex (b.take 4) ++
    (45 :: (arrayBufferToHex ((b.drop 4).take 2) ++
      (45 :: (arrayBufferToHex ((b.drop 6).take 2) ++
        (45 :: (arrayBufferToHex ((b.drop 8).take 2) ++
          (45 :: arrayBufferToHex (b.drop 10))))))))

/-- Modelled from the spec: Node randomUUID as a function of the 16 random
bytes it draws from the system entropy source. -/
def randomUUID (randomBytes : Bytes) : Str :=
  uuidFormat (uuidForce randomBytes)

/-- Flip a single bit of a byte buffer: bit (i mod 8) of byte (i div 8). -/
def flipBit (i : Nat) (l : Bytes) : Bytes :=
  l.set (i / 8) (l.getD (i / 8) 0 ^^^ 2 ^ (i % 8))

/-- Well-formedness of key material for the codec lemmas: real bytes, with
lengths and numeric parameters below 2 ^ 32. -/
def keyWf : KeyHandle → Prop
  | .raw data => isBytes data ∧ data.length < 4294967296
  | .derived p pin salt =>
    isBytes pin ∧ isBytes salt ∧ pin.length < 4294967296 ∧
      salt.length < 4294967296 ∧ p.iterations < 4294967296 ∧ p.length < 4294967296

instance (k : KeyHandle) : Decidable (keyWf k) := by
  cases k <;> simp only [keyWf] <;> exact inferInstance

/-- Demonstration key material for the receiver-side scenario: a 32-byte
key as drawn by generateKey. -/
def demoKeyBytes : Bytes := List.replicate 32 7

def demoKey : KeyHandle := generateKey demoKeyBytes

/-- Demonstration secret, nonces, salt and PINs for the scenario. -/
def demoSecret : Bytes := [104, 105]

def demoIv : Bytes := List.replicate 12 3

def demoPin : Bytes := [49, 50, 51, 52]

def demoWrongPin : Bytes := [48, 48, 48, 48]

def demoSalt : Bytes := List.replicate 16 5

def demoKeyIv : Bytes := List.replicate 12 9

def demoEncrypted : EncryptResult := encrypt demoSecret demoKey demoIv

def demoWrap : WrapResult :=
  (encryptKeyWithPin demoKey demoPin demoSalt demoKeyIv).getD default

def demoFragment : FragmentData :=
  ⟨demoWrap.encryptedKeyHex, demoWrap.keyIvHex, demoWrap.saltHex⟩

def demoId : Str := randomUUID (List.replicate 16 1)

/-- The store right after the sender-side create call of the scenario. -/
def demoStore : Store :=
  (POST ⟨some demoEncrypted.encryptedHex, some demoEncrypted.ivHex, some 3600⟩ demoId []).2

/-- Value of a hex digit character round-trips for digits below 16. -/
theorem hexDigitVal_hexDigitChar : ∀ n < 16, hexDigitVal (hexDigitChar n) = some n := by
  decide

set_option maxRecDepth 8000 in
/-- Reading back the two lowercase hex characters of a byte recovers the
byte. -/
theorem parseIntHex_byteToHex : ∀ b < 256, toUint8 (parseIntHex (byteToHex b)) = b := by
  decide

theorem byteToHex_length (b : Nat) : (byteToHex b).length = 2 := by
  unfold byteToHex; split <;> rfl

theorem hexPairsBytes_byteToHex (b : Nat) (rest : Str) :
    hexPairsBytes (byteToHex b ++ rest) =
      toUint8 (parseIntHex (byteToHex b)) :: hexPairsBytes rest := by
  unfold byteToHex; split <;> rfl

theorem arrayBufferToHex_cons (b : Nat) (rest : Bytes) :
    arrayBufferToHex (b :: rest) = byteToHex b ++ arrayBufferToHex rest :=
  List.flatMap_cons b rest byteToHex

theorem length_arrayBufferToHex (l : Bytes) : (arrayBufferToHex l).length = 2 * l.length := by
  induction l with
  | nil => rfl
  | cons b rest ih =>
    rw [arrayBufferToHex_cons, List.length_append, byteToHex_length, ih]
    simp [List.length_cons]
    omega

theorem hexPairsBytes_arrayBufferToHex {l : Bytes} (h : isBytes l) :
    hexPairsBytes (arrayBufferToHex l) = l := by
  induction l with
  | nil => rfl
  | cons b rest ih =>
    have hb : b < 256 := h b (by simp)
    have hrest : isBytes rest := fun x hx => h x (by simp [hx])
    rw [arrayBufferToHex_cons, hexPairsBytes_byteToHex,
      parseIntHex_byteToHex b hb, ih hrest]

theorem hexToArrayBuffer_arrayBufferToHex {l : Bytes} (h : isBytes l) :
    hexToArrayBuffer (arrayBufferToHex l) = l := by
  unfold hexToArrayBuffer
  exact hexPairsBytes_arrayBufferToHex h

theorem arrayBufferToHex_inj {l1 l2 : Bytes} (h1 : isBytes l1) (h2 : isBytes l2)
    (h : arrayBufferToHex l1 = arrayBufferToHex l2) : l1 = l2 := by
  have e1 := hexToArrayBuffer_arrayBufferToHex h1
  rw [h, hexToArrayBuffer_arrayBufferToHex h2] at e1
  exact e1.symm

theorem hexPairsBytes_length : ∀ s : Str, (hexPairsBytes s).length = s.length / 2
  | [] => rfl
  | [c] => by simp [hexPairsBytes]
  | c1 :: c2 :: rest => by
    simp only [hexPairsBytes, List.length_cons, hexPairsBytes_length rest]
    omega

theorem readLen4_len4 {n : Nat} (h : n < 4294967296) (r : Bytes) :
    readLen4 (len4 n ++ r) = some (n, r) := by
  have harith :
      (((n / 16777216 % 256) * 256 + n / 65536 % 256) * 256 + n / 256 % 256) * 256 + n % 256
        = n := by omega
  simp [len4, readLen4, harith]

theorem readChunk_append (l r : Bytes) : readChunk l.length (l ++ r) = some (l, r) := by
  simp [readChunk, List.take_left, List.drop_left, List.length_append, Nat.le_add_right]

theorem parseKeyHandle_keyEnc {k : KeyHandle} (hk : keyWf k) (r : Bytes) :
    parseKeyHandle (keyEnc k ++ r) = some (k, r) := by
  cases k with
  | raw data =>
    obtain ⟨hb, hlen⟩ := hk
    simp only [keyEnc, List.cons_append, List.append_assoc]
    simp only [parseKeyHandle]
    rw [readLen4_len4 hlen]
    simp only [Option.some_bind]
    rw [readChunk_append]
    simp only [Option.some_bind]
  | derived p pin salt =>
    obtain ⟨hpinB, hsaltB, hpinL, hsaltL, hiter, hklen⟩ := hk
    simp only [keyEnc, List.cons_append, List.append_assoc]
    simp only [parseKeyHandle]
    rw [readLen4_len4 hiter]
    simp only [Option.some_bind]
    rw [readLen4_len4 hklen]
    simp only [Option.some_bind]
    rw [readLen4_len4 hpinL]
    simp only [Option.some_bind]
    rw [readChunk_append]
    simp only [Option.some_bind]
    rw [readLen4_len4 hsaltL]
    simp only [Option.some_bind]
    rw [readChunk_append]
    simp only [Option.some_bind]

theorem parseTriple_encTriple {k : KeyHandle} (hk : keyWf k) {iv : Bytes}
    (hiv : iv.length < 4294967296) (pt : Bytes) :
    parseTriple (encTriple k iv pt) = some (k, iv, pt) := by
  unfold parseTriple encTriple
  rw [parseKeyHandle_keyEnc hk]
  simp only [Option.some_bind]
  rw [readLen4_len4 hiv]
  simp only [Option.some_bind]
  rw [readChunk_append]
  simp only [Option.some_bind]

theorem gcmEncrypt_length (k : KeyHandle) (iv pt : Bytes) :
    (gcmEncrypt k iv pt).length = 2 * (encTriple k iv pt).length := by
  unfold gcmEncrypt
  rw [List.length_append]
  omega

theorem gcmDecrypt_gcmEncrypt {k : KeyHandle} (hk : keyWf k) {iv : Bytes}
    (hiv : iv.length < 4294967296) (pt : Bytes) :
    gcmDecrypt k iv (gcmEncrypt k iv pt) = some pt := by
  have hlen := gcmEncrypt_length k iv pt
  have hn : (gcmEncrypt k iv pt).length / 2 = (encTriple k iv pt).length := by omega
  have hmod : (gcmEncrypt k iv pt).length % 2 = 0 := by omega
  unfold gcmDecrypt
  rw [hn, hmod]
  unfold gcmEncrypt
  rw [List.take_left, List.drop_left]
  rw [if_pos ⟨rfl, rfl⟩]
  rw [parseTriple_encTriple hk hiv]
  simp

theorem gcmDecrypt_wrong_key {k k2 : KeyHandle} (hk : keyWf k) {iv : Bytes}
    (hiv : iv.length < 4294967296) (pt : Bytes) (hne : k ≠ k2) :
    gcmDecrypt k2 iv (gcmEncrypt k iv pt) = none := by
  have hlen := gcmEncrypt_length k iv pt
  have hn : (gcmEncrypt k iv pt).length / 2 = (encTriple k iv pt).length := by omega
  have hmod : (gcmEncrypt k iv pt).length % 2 = 0 := by omega
  unfold gcmDecrypt
  rw [hn, hmod]
  unfold gcmEncrypt
  rw [List.take_left, List.drop_left]
  rw [if_pos ⟨rfl, rfl⟩]
  rw [parseTriple_encTriple hk hiv]
  simp [hne]

theorem isBytes_len4 (n : Nat) : isBytes (len4 n) := by
  intro b hb
  simp [len4] at hb
  rcases hb with h | h | h | h <;> omega

theorem isBytes_keyEnc {k : KeyHandle} (hk : keyWf k) : isBytes (keyEnc k) := by
  cases k with
  | raw data =>
    obtain ⟨hb, _⟩ := hk
    intro x hx
    simp [keyEnc, List.mem_append, List.mem_cons] at hx
    rcases hx with h | h | h
    · omega
    · exact isBytes_len4 _ x h
    · exact hb x h
  | derived p pin salt =>
    obtain ⟨hpinB, hsaltB, _, _, _, _⟩ := hk
    intro x hx
    simp [keyEnc, List.mem_append, List.mem_cons] at hx
    rcases hx with h | h | h | h | h | h | h
    · omega
    · exact isBytes_len4 _ x h
    · exact isBytes_len4 _ x h
    · exact isBytes_len4 _ x h
    · exact hpinB x h
    · exact isBytes_len4 _ x h
    · exact hsaltB x h

theorem isBytes_encTriple {k : KeyHandle} (hk : keyWf k) {iv pt : Bytes}
    (hiv : isBytes iv) (hpt : isBytes pt) : isBytes (encTriple k iv pt) := by
  unfold encTriple
  exact List.forall_mem_append.mpr ⟨isBytes_keyEnc hk,
    List.forall_mem_append.mpr ⟨isBytes_len4 _,
      List.forall_mem_append.mpr ⟨hiv, hpt⟩⟩⟩

theorem isBytes_gcmEncrypt {k : KeyHandle} (hk : keyWf k) {iv pt : Bytes}
    (hiv : isBytes iv) (hpt : isBytes pt) : isBytes (gcmEncrypt k iv pt) := by
  unfold gcmEncrypt
  exact List.forall_mem_append.mpr ⟨isBytes_encTriple hk hiv hpt,
    isBytes_encTriple hk hiv hpt⟩

theorem xor_ne_self {a m : Nat} (hm : m ≠ 0) : a ^^^ m ≠ a := by
  intro h
  have h2 : a ^^^ m ^^^ a = a ^^^ a := by rw [h]
  rw [Nat.xor_comm a m] at h2
  rw [Nat.xor_assoc, Nat.xor_self] at h2
  simp at h2
  exact hm h2

theorem orFail_some {α : Type} (a : α) (e : CryptoFailure) : orFail (some a) e = .ok a := rfl

theorem orFail_none {α : Type} (e : CryptoFailure) :
    orFail (none : Option α) e = .error e := rfl

theorem exBind_ok {α β : Type} (a : α) (f : α → Except CryptoFailure β) :
    exBind (.ok a) f = f a := rfl

theorem exBind_error {α β : Type} (e : CryptoFailure) (f : α → Except CryptoFailure β) :
    exBind (.error e) f = .error e := rfl

theorem storeLookup_storeErase (id : Str) (st : Store) :
    storeLookup id (storeErase id st) = none := by
  induction st with
  | nil => rfl
  | cons kv rest ih =>
    obtain ⟨k, e⟩ := kv
    by_cases h : k = id
    · simpa [storeErase, h] using ih
    · simpa [storeErase, h, storeLookup] using ih

theorem storeLookup_redisSetex (id : Str) (ttl : Nat) (d : SecretData) (st : Store) :
    storeLookup id (redisSetex id ttl d st) = some ⟨ttl, d⟩ := by
  simp [redisSetex, storeLookup]

theorem GET_found {id : Str} (hid : id ≠ []) {st : Store} {e : StoreEntry}
    (h : storeLookup id st = some e) :
    GET (some id) st = (.okData e.data.encryptedHex e.data.ivHex, storeErase id st) := by
  simp [GET, redisGetdel, h, List.isEmpty_eq_false.mpr hid]

theorem GET_absent {id : Str} (hid : id ≠ []) {st : Store}
    (h : storeLookup id st = none) : GET (some id) st = (.notFound, st) := by
  simp [GET, redisGetdel, h, List.isEmpty_eq_false.mpr hid]

theorem consumeRun_absent {id : Str} (hid : id ≠ []) {st : Store}
    (h : storeLookup id st = none) : ∀ n, consumeRun n id st = List.replicate n .notFound := by
  intro n
  induction n with
  | zero => rfl
  | succ m ih => simp [consumeRun, GET_absent hid h, ih, List.replicate_succ]

/-- C1: for every stored record and every number N of concurrent consume
calls for its id, each call is one atomic GETDEL step at the store, so a
run of N such calls (any serialization of the concurrent schedule) has
exactly one caller observe the record and the other N - 1 observe
NotFound. -/
theorem consume_atomic_exactly_one {N : Nat} (hN : 1 ≤ N) {id : Str} (hid : id ≠ [])
    {st : Store} {e : StoreEntry} (h : storeLookup id st = some e) :
    consumeRun N id st =
      ApiResponse.okData e.data.encryptedHex e.data.ivHex ::
        List.replicate (N - 1) ApiResponse.notFound ∧
    (consumeRun N id st).count (ApiResponse.okData e.data.encryptedHex e.data.ivHex) = 1 ∧
    (consumeRun N id st).count ApiResponse.notFound = N - 1 := by
  obtain ⟨m, rfl⟩ : ∃ m, N = m + 1 := ⟨N - 1, by omega⟩
  have hstep : consumeRun (m + 1) id st =
      ApiResponse.okData e.data.encryptedHex e.data.ivHex ::
        consumeRun m id (storeErase id st) := by
    simp [consumeRun, GET_found hid h]
  have habs := consumeRun_absent hid (storeLookup_storeErase id st) m
  rw [hstep, habs]
  refine ⟨by simp, ?_, ?_⟩
  · simp [List.count_cons, List.count_replicate]
  · simp [List.count_cons, List.count_replicate]

/-- Concrete run of three consume calls against a one-record store. -/
theorem consume_atomic_exactly_one_witness :
    consumeRun 3 [97] [([97], ⟨60, ⟨[1], [2]⟩⟩)] =
      ApiResponse.okData [1] [2] :: List.replicate 2 ApiResponse.notFound ∧
    (consumeRun 3 [97] [([97], ⟨60, ⟨[1], [2]⟩⟩)]).count (ApiResponse.okData [1] [2]) = 1 ∧
    (consumeRun 3 [97] [([97], ⟨60, ⟨[1], [2]⟩⟩)]).count ApiResponse.notFound = 2 :=
  @consume_atomic_exactly_one 3 (by decide) [97] (by decide)
    [([97], ⟨60, ⟨[1], [2]⟩⟩)] ⟨60, ⟨[1], [2]⟩⟩ (by decide)

/-- C6: a record stored by create is returned by the first consume exactly
as stored, the same atomic step removes it, and any further consume of the
same id observes NotFound. -/
theorem create_consume_second_notfound {enc iv : Str} (henc : enc ≠ []) (hiv : iv ≠ [])
    {id : Str} (hid : id ≠ []) (ttl : Option Nat) (st : Store) :
    POST ⟨some enc, some iv, ttl⟩ id st =
      (.okId id, redisSetex id (ttl.getD 86400) ⟨enc, iv⟩ st) ∧
    GET (some id) (redisSetex id (ttl.getD 86400) ⟨enc, iv⟩ st) =
      (.okData enc iv, storeErase id (redisSetex id (ttl.getD 86400) ⟨enc, iv⟩ st)) ∧
    (GET (some id) (storeErase id (redisSetex id (ttl.getD 86400) ⟨enc, iv⟩ st))).1 =
      ApiResponse.notFound := by
  refine ⟨?_, ?_, ?_⟩
  · simp [POST, falsyStr, List.isEmpty_eq_false.mpr henc, List.isEmpty_eq_false.mpr hiv]
  · simpa using GET_found hid (storeLookup_redisSetex id (ttl.getD 86400) ⟨enc, iv⟩ st)
  · simp [GET_absent hid (storeLookup_storeErase id _)]

/-- Concrete create, consume, consume-again run. -/
theorem create_consume_second_notfound_witness :
    POST ⟨some [10], some [20], some 3600⟩ [98] [] =
      (.okId [98], redisSetex [98] 3600 ⟨[10], [20]⟩ []) ∧
    GET (some [98]) (redisSetex [98] 3600 ⟨[10], [20]⟩ []) =
      (.okData [10] [20], storeErase [98] (redisSetex [98] 3600 ⟨[10], [20]⟩ [])) ∧
    (GET (some [98]) (storeErase [98] (redisSetex [98] 3600 ⟨[10], [20]⟩ []))).1 =
      ApiResponse.notFound :=
  create_consume_second_notfound (by decide) (by decide) (by decide) (some 3600) []

/-- C10: a create request missing either hex field is rejected with the
store untouched, and a request without ttlSeconds stores the record with
the default policy value of 86400 seconds. -/
theorem post_validation_and_default_ttl :
    (∀ (body : PostBody) (id : Str) (st : Store),
      body.encryptedHex = none ∨ body.ivHex = none → POST body id st = (.badRequest, st)) ∧
    (∀ (enc iv id : Str) (st : Store), enc ≠ [] → iv ≠ [] →
      (POST ⟨some enc, some iv, none⟩ id st).2 = redisSetex id 86400 ⟨enc, iv⟩ st ∧
      storeLookup id (POST ⟨some enc, some iv, none⟩ id st).2 = some ⟨86400, ⟨enc, iv⟩⟩) := by
  constructor
  · intro body id st h
    rcases h with h | h <;> simp [POST, h, falsyStr]
  · intro enc iv id st henc hiv
    refine ⟨?_, ?_⟩
    · simp [POST, falsyStr, List.isEmpty_eq_false.mpr henc, List.isEmpty_eq_false.mpr hiv]
    · simp [POST, falsyStr, List.isEmpty_eq_false.mpr henc, List.isEmpty_eq_false.mpr hiv,
        storeLookup_redisSetex]

/-- Concrete rejected request and concrete default-ttl store. -/
theorem post_validation_and_default_ttl_witness :
    POST ⟨none, some [1], some 5⟩ [97] [] = (.badRequest, []) ∧
    storeLookup [97] (POST ⟨some [1], some [2], none⟩ [97] []).2 = some ⟨86400, ⟨[1], [2]⟩⟩ :=
  ⟨post_validation_and_default_ttl.1 ⟨none, some [1], some 5⟩ [97] [] (Or.inl rfl),
    (post_validation_and_default_ttl.2 [1] [2] [97] [] (by decide) (by decide)).2⟩

/-- C2: decrypting the output of encrypt with the same key and the
returned nonce yields exactly the original plaintext. -/
theorem encrypt_decrypt_roundtrip {pt : Bytes} (hpt : isBytes pt) {key : KeyHandle}
    (hk : keyWf key) {iv : Bytes} (hivB : isBytes iv) (hivL : iv.length < 4294967296) :
    decryptWithKey (encrypt pt key iv).encryptedHex key (encrypt pt key iv).ivHex =
      .ok pt := by
  have hct : isBytes (gcmEncrypt key iv pt) := isBytes_gcmEncrypt hk hivB hpt
  simp only [encrypt, decryptWithKey]
  rw [hexToArrayBuffer_arrayBufferToHex hct, hexToArrayBuffer_arrayBufferToHex hivB,
    gcmDecrypt_gcmEncrypt hk hivL, orFail_some]

/-- Concrete round-trip of a two-byte plaintext under a 32-byte key. -/
theorem encrypt_decrypt_roundtrip_witness :
    decryptWithKey (encrypt [104, 105] (KeyHandle.raw (List.replicate 32 7)) [3, 4]).encryptedHex
      (KeyHandle.raw (List.replicate 32 7))
      (encrypt [104, 105] (KeyHandle.raw (List.replicate 32 7)) [3, 4]).ivHex =
      .ok [104, 105] :=
  @encrypt_decrypt_roundtrip [104, 105] (by decide) (KeyHandle.raw (List.replicate 32 7))
    (by decide) [3, 4] (by decide) (by decide)

/-- C5: deriveKeyFromPin is the PBKDF2 derivation with the fixed policy
parameters SHA-256, 100000 iterations and 256-bit output; it is a
deterministic function of pin and salt, and distinct salts give distinct
derived keys. -/
theorem deriveKey_fixed_params_salt_inj :
    (∀ pin salt : Bytes, deriveKeyFromPin pin salt =
      KeyHandle.derived ⟨100000, HashAlg.SHA256, 256⟩ pin salt) ∧
    (∀ p1 p2 s1 s2 : Bytes, p1 = p2 → s1 = s2 →
      deriveKeyFromPin p1 s1 = deriveKeyFromPin p2 s2) ∧
    (∀ pin s1 s2 : Bytes, s1 ≠ s2 → deriveKeyFromPin pin s1 ≠ deriveKeyFromPin pin s2) := by
  refine ⟨fun _ _ => rfl, fun p1 p2 s1 s2 hp hs => by rw [hp, hs], ?_⟩
  intro pin s1 s2 hne h
  exact hne (by simpa [deriveKeyFromPin] using h)

/-- Concrete derivation parameters and a concrete distinct-salt pair. -/
theorem deriveKey_fixed_params_salt_inj_witness :
    deriveKeyFromPin [49] [0] = KeyHandle.derived ⟨100000, HashAlg.SHA256, 256⟩ [49] [0] ∧
    deriveKeyFromPin [49] [0] ≠ deriveKeyFromPin [49] [1] :=
  ⟨deriveKey_fixed_params_salt_inj.1 [49] [0],
    deriveKey_fixed_params_salt_inj.2.2 [49] [0] [1] (by decide)⟩

/-- C4: wrapping a 256-bit key under a pin with a salt, then unwrapping
with the same pin and salt, recovers the key exactly; unwrapping the same
wrap output with any different pin fails with an authentication
failure. -/
theorem pin_wrap_roundtrip_wrong_pin_fails {keyBytes : Bytes} (hkB : isBytes keyBytes)
    (hk32 : keyBytes.length = 32) {pin : Bytes} (hpinB : isBytes pin)
    (hpinL : pin.length < 4294967296) {salt : Bytes} (hsB : isBytes salt)
    (hsL : salt.length < 4294967296) {keyIv : Bytes} (hivB : isBytes keyIv)
    (hivL : keyIv.length < 4294967296) {w : WrapResult}
    (hw : encryptKeyWithPin (KeyHandle.raw keyBytes) pin salt keyIv = some w) :
    decryptKeyWithPin w.encryptedKeyHex w.keyIvHex w.saltHex pin =
      .ok (KeyHandle.raw keyBytes) ∧
    ∀ pin2 : Bytes, pin2 ≠ pin →
      decryptKeyWithPin w.encryptedKeyHex w.keyIvHex w.saltHex pin2 =
        .error .authFailure := by
  have hwf : keyWf (deriveKeyFromPin pin salt) :=
    ⟨hpinB, hsB, hpinL, hsL, by norm_num, by norm_num⟩
  have hct : isBytes (gcmEncrypt (deriveKeyFromPin pin salt) keyIv keyBytes) :=
    isBytes_gcmEncrypt hwf hivB hkB
  have hwd : w = ⟨arrayBufferToHex (gcmEncrypt (deriveKeyFromPin pin salt) keyIv keyBytes),
      arrayBufferToHex keyIv, arrayBufferToHex salt⟩ := (Option.some_inj.mp hw).symm
  subst hwd
  constructor
  · simp only [decryptKeyWithPin]
    rw [hexToArrayBuffer_arrayBufferToHex hsB, hexToArrayBuffer_arrayBufferToHex hct,
      hexToArrayBuffer_arrayBufferToHex hivB,
      gcmDecrypt_gcmEncrypt hwf hivL, orFail_some, exBind_ok]
    simp [subtleImportKey, hk32, orFail_some]
  · intro pin2 hne
    have hkne : deriveKeyFromPin pin salt ≠ deriveKeyFromPin pin2 salt := by
      intro h
      exact hne ((by simpa [deriveKeyFromPin] using h : pin = pin2)).symm
    simp only [decryptKeyWithPin]
    rw [hexToArrayBuffer_arrayBufferToHex hsB, hexToArrayBuffer_arrayBufferToHex hct,
      hexToArrayBuffer_arrayBufferToHex hivB,
      gcmDecrypt_wrong_key hwf hivL keyBytes hkne, orFail_none, exBind_error]

/-- Concrete wrap of a 32-byte key under one pin, unwrapped with the same
and with a different pin. -/
theorem pin_wrap_roundtrip_wrong_pin_fails_witness :
    decryptKeyWithPin
      (arrayBufferToHex (gcmEncrypt (deriveKeyFromPin [49] [5]) [9] (List.replicate 32 7)))
      (arrayBufferToHex [9]) (arrayBufferToHex [5]) [49] =
      .ok (KeyHandle.raw (List.replicate 32 7)) ∧
    decryptKeyWithPin
      (arrayBufferToHex (gcmEncrypt (deriveKeyFromPin [49] [5]) [9] (List.replicate 32 7)))
      (arrayBufferToHex [9]) (arrayBufferToHex [5]) [48] =
      .error .authFailure := by
  have h := @pin_wrap_roundtrip_wrong_pin_fails (List.replicate 32 7) (by decide) (by decide)
    [49] (by decide) (by decide) [5] (by decide) (by decide) [9] (by decide) (by decide)
    ⟨arrayBufferToHex (gcmEncrypt (deriveKeyFromPin [49] [5]) [9] (List.replicate 32 7)),
      arrayBufferToHex [9], arrayBufferToHex [5]⟩ rfl
  exact ⟨h.1, h.2 [48] (by decide)⟩

theorem set_ne_take_drop {e : Bytes} (hepos : 0 < e.length) {j v : Nat}
    (hjlt : j < (e ++ e).length) (hv : v ≠ (e ++ e).getD j 0) :
    ((e ++ e).set j v).take e.length ≠ ((e ++ e).set j v).drop e.length := by
  intro heq
  have hctlen : (e ++ e).length = 2 * e.length := by rw [List.length_append]; omega
  have hslen : ((e ++ e).set j v).length = 2 * e.length := by rw [List.length_set]; omega
  rw [List.getD_eq_getElem _ 0 hjlt] at hv
  by_cases hj : j < e.length
  · have h1 : j < (((e ++ e).set j v).take e.length).length := by
      rw [List.length_take]
      exact lt_min_iff.mpr ⟨hj, by omega⟩
    have h2 : j < (((e ++ e).set j v).drop e.length).length := by
      rw [List.length_drop]; omega
    have hgd := congrArg (fun l => l.getD j 0) heq
    simp only [] at hgd
    rw [List.getD_eq_getElem _ 0 h1, List.getD_eq_getElem _ 0 h2,
      List.getElem_take, List.getElem_drop, List.getElem_set_self,
      List.getElem_set_ne (by omega : j ≠ e.length + j)] at hgd
    rw [List.getElem_append_right (by omega : e.length ≤ e.length + j)] at hgd
    simp only [Nat.add_sub_cancel_left] at hgd
    rw [List.getElem_append_left hj] at hv
    exact hv hgd
  · push_neg at hj
    have hj2 : j - e.length < e.length := by omega
    have h1 : j - e.length < (((e ++ e).set j v).take e.length).length := by
      rw [List.length_take]
      exact lt_min_iff.mpr ⟨hj2, by omega⟩
    have h2 : j - e.length < (((e ++ e).set j v).drop e.length).length := by
      rw [List.length_drop]; omega
    have hgd := congrArg (fun l => l.getD (j - e.length) 0) heq
    simp only [] at hgd
    rw [List.getD_eq_getElem _ 0 h1, List.getD_eq_getElem _ 0 h2,
      List.getElem_take, List.getElem_drop,
      List.getElem_set_ne (by omega : j ≠ j - e.length)] at hgd
    simp only [show e.length + (j - e.length) = j from by omega] at hgd
    rw [List.getElem_set_self] at hgd
    rw [List.getElem_append_left hj2] at hgd
    rw [List.getElem_append_right hj] at hv
    exact hv hgd.symm

theorem gcmDecrypt_flipBit_none (k : KeyHandle) (iv pt : Bytes) {i : Nat}
    (hi : i < 8 * (gcmEncrypt k iv pt).length) (key2 : KeyHandle) (iv2 : Bytes) :
    gcmDecrypt key2 iv2 (flipBit i (gcmEncrypt k iv pt)) = none := by
  unfold flipBit gcmDecrypt
  unfold gcmEncrypt at hi ⊢
  set e := encTriple k iv pt with hedef
  have hepos : 0 < e.length := by
    rw [hedef]
    cases k <;> simp [encTriple, keyEnc]
  have hctlen : (e ++ e).length = 2 * e.length := by rw [List.length_append]; omega
  have hjlt : i / 8 < (e ++ e).length := by omega
  have hslen : ((e ++ e).set (i / 8) ((e ++ e).getD (i / 8) 0 ^^^ 2 ^ (i % 8))).length
      = 2 * e.length := by rw [List.length_set]; omega
  have hdiv : ((e ++ e).set (i / 8) ((e ++ e).getD (i / 8) 0 ^^^ 2 ^ (i % 8))).length / 2
      = e.length := by omega
  rw [hdiv]
  refine if_neg ?_
  rintro ⟨-, heq⟩
  exact set_ne_take_drop hepos hjlt (xor_ne_self (pow_ne_zero _ (by norm_num))) heq

/-- C3: flipping any single bit of the ciphertext-with-tag makes the
decryption fail with AuthenticationFailure, and no plaintext, not even a
partial one, is ever returned. -/
theorem bitflip_auth_failure {pt : Bytes} (hpt : isBytes pt) {key : KeyHandle}
    (hk : keyWf key) {iv : Bytes} (hivB : isBytes iv) {i : Nat}
    (hi : i < 8 * (gcmEncrypt key iv pt).length) :
    decryptWithKey (arrayBufferToHex (flipBit i (gcmEncrypt key iv pt))) key
      (arrayBufferToHex iv) = .error .authFailure := by
  have hct : isBytes (gcmEncrypt key iv pt) := isBytes_gcmEncrypt hk hivB hpt
  have hjlt : i / 8 < (gcmEncrypt key iv pt).length := by omega
  have h256 : (256 : Nat) = 2 ^ 8 := by norm_num
  have hflip : isBytes (flipBit i (gcmEncrypt key iv pt)) := by
    intro x hx
    rcases List.mem_or_eq_of_mem_set hx with h | h
    · exact hct x h
    · rw [List.getD_eq_getElem _ 0 hjlt] at h
      subst h
      rw [h256]
      exact Nat.xor_lt_two_pow (by rw [← h256]; exact hct _ (List.getElem_mem hjlt))
        (Nat.pow_lt_pow_right (by norm_num) (Nat.mod_lt _ (by norm_num)))
  unfold decryptWithKey
  rw [hexToArrayBuffer_arrayBufferToHex hflip, hexToArrayBuffer_arrayBufferToHex hivB,
    gcmDecrypt_flipBit_none key iv pt hi key iv, orFail_none]

/-- Concrete one-bit corruption of a concrete ciphertext. -/
theorem bitflip_auth_failure_witness :
    decryptWithKey
      (arrayBufferToHex (flipBit 0 (gcmEncrypt (KeyHandle.raw (List.replicate 32 7)) [3] [104])))
      (KeyHandle.raw (List.replicate 32 7)) (arrayBufferToHex [3]) =
      .error .authFailure :=
  @bitflip_auth_failure [104] (by decide) (KeyHandle.raw (List.replicate 32 7)) (by decide)
    [3] (by decide) 0 (by decide)

set_option maxRecDepth 200000 in
/-- C7 (refuted by the code): handleReveal keeps no client-side cache of a
fetched ciphertext - its only inputs are the pin, the fragment, the id and
the store - so after a successful fetch followed by a wrong-PIN failure,
the retry issues a second fetch.  In the concrete scenario the first
attempt with the wrong PIN consumes the one-shot record and reports a
wrong PIN, the retry with the correct PIN then observes NotFound and the
secret is unrecoverable, while the correct PIN on the first attempt would
have revealed it. -/
theorem wrong_pin_retry_loses_secret :
    (handleReveal demoWrongPin (some demoFragment) demoId demoStore).1 =
      RevealOutcome.wrongPin ∧
    (handleReveal demoPin (some demoFragment) demoId
      (handleReveal demoWrongPin (some demoFragment) demoId demoStore).2).1 =
      RevealOutcome.notFoundMsg ∧
    (handleReveal demoPin (some demoFragment) demoId demoStore).1 =
      RevealOutcome.revealed demoSecret := by
  refine ⟨?_, ?_, ?_⟩ <;> decide

/-- C8 counterexample: the malformed hex input of two z characters (code
122) is silently coerced by hexToArrayBuffer to the single zero byte -
the NaN of parseInt stored into the Uint8Array - and the odd-length input
abc (codes 97, 98, 99) is silently truncated to the one byte 171 with its
trailing character dropped; neither is the hard InvalidParameter failure
the claim requires. -/
theorem malformed_hex_coerced_counterexample :
    hexToArrayBuffer [122, 122] = [0] ∧ hexToArrayBuffer [97, 98, 99] = [171] := by
  exact ⟨by decide, by decide⟩

/-- C8 amended: raw key material of a length other than 16, 24 or 32
bytes fails hard at the platform key import, but hex decoding never
fails - every input, however malformed, yields exactly floor(length / 2)
bytes, dropping the lone trailing character of an odd-length input and
coercing each bad digit pair to a byte - and the 96-bit nonce length is
never validated: a nonce of any length is accepted by decryption. -/
theorem length_validation_amended :
    (∀ s : Str, hexToArrayBuffer s = hexPairsBytes s ∧
      (hexToArrayBuffer s).length = s.length / 2) ∧
    (∀ data : Bytes, data.length ≠ 16 → data.length ≠ 24 → data.length ≠ 32 →
      subtleImportKey data = none) ∧
    (∀ k : KeyHandle, keyWf k → ∀ iv : Bytes, iv.length < 4294967296 → ∀ pt : Bytes,
      gcmDecrypt k iv (gcmEncrypt k iv pt) = some pt) := by
  refine ⟨?_, ?_, ?_⟩
  · intro s
    exact ⟨rfl, hexPairsBytes_length s⟩
  · intro data h16 h24 h32
    simp [subtleImportKey, h16, h24, h32]
  · intro k hk iv hiv pt
    exact gcmDecrypt_gcmEncrypt hk hiv pt

/-- Concrete truncated odd-length input, rejected 3-byte key, and
accepted 4-byte nonce. -/
theorem length_validation_amended_witness :
    (hexToArrayBuffer [97, 98, 99]).length = 1 ∧
    subtleImportKey [0, 1, 2] = none ∧
    gcmDecrypt (KeyHandle.raw [5]) [9, 9, 9, 9]
      (gcmEncrypt (KeyHandle.raw [5]) [9, 9, 9, 9] [1]) = some [1] :=
  ⟨(length_validation_amended.1 [97, 98, 99]).2,
    length_validation_amended.2.1 [0, 1, 2] (by decide) (by decide) (by decide),
    length_validation_amended.2.2 (KeyHandle.raw [5]) (by decide) [9, 9, 9, 9]
      (by decide) [1]⟩

/-- C9 counterexample: two distinct 16-byte random inputs produce the same
generated id, because randomUUID forces the six version and variant bits;
the id therefore carries strictly fewer than 128 bits of the randomness,
refuting the 128-bit-plus claim. -/
theorem uuid_seed_collision_counterexample :
    randomUUID (List.replicate 16 0) = randomUUID ((List.replicate 16 0).set 6 64) ∧
    List.replicate 16 0 ≠ (List.replicate 16 0).set 6 64 := by
  exact ⟨by decide, by decide⟩

theorem uuidForce_length (b : Bytes) : (uuidForce b).length = b.length := by
  simp [uuidForce, List.length_set]

theorem uuidForce_isBytes {b : Bytes} (hb : isBytes b) : isBytes (uuidForce b) := by
  intro x hx
  unfold uuidForce at hx
  rcases List.mem_or_eq_of_mem_set hx with h | h
  · rcases List.mem_or_eq_of_mem_set h with h2 | h2
    · exact hb x h2
    · have hm : b.getD 6 0 % 16 < 16 := Nat.mod_lt _ (by norm_num)
      omega
  · have hm : b.getD 8 0 % 64 < 64 := Nat.mod_lt _ (by norm_num)
    omega

theorem getElem_of_take_drop_eq {x y : Bytes} {d t i : Nat}
    (h : (x.drop d).take t = (y.drop d).take t) (hi1 : d ≤ i) (hi2 : i < d + t)
    (hx : i < x.length) (hy : i < y.length) : x[i] = y[i] := by
  have hidx : i - d < t := by omega
  have hix : i - d < ((x.drop d).take t).length := by
    rw [List.length_take, List.length_drop]
    exact lt_min_iff.mpr ⟨hidx, by omega⟩
  have hiy : i - d < ((y.drop d).take t).length := by
    rw [List.length_take, List.length_drop]
    exact lt_min_iff.mpr ⟨hidx, by omega⟩
  have g := congrArg (fun l => l.getD (i - d) 0) h
  simp only [] at g
  rw [List.getD_eq_getElem _ 0 hix, List.getD_eq_getElem _ 0 hiy,
    List.getElem_take, List.getElem_take, List.getElem_drop, List.getElem_drop] at g
  simp only [show d + (i - d) = i from by omega] at g
  exact g

theorem uuidFormat_inj {x y : Bytes} (hx16 : x.length = 16) (hy16 : y.length = 16)
    (hxB : isBytes x) (hyB : isBytes y) (h : uuidFormat x = uuidFormat y) : x = y := by
  unfold uuidFormat at h
  have hlen1 : (arrayBufferToHex (x.take 4)).length = (arrayBufferToHex (y.take 4)).length := by
    rw [length_arrayBufferToHex, length_arrayBufferToHex, List.length_take, List.length_take,
      hx16, hy16]
  obtain ⟨e1, hrest1⟩ := List.append_inj h hlen1
  injection hrest1 with hhead1 hrest1
  have hlen2 : (arrayBufferToHex ((x.drop 4).take 2)).length =
      (arrayBufferToHex ((y.drop 4).take 2)).length := by
    rw [length_arrayBufferToHex, length_arrayBufferToHex, List.length_take, List.length_take,
      List.length_drop, List.length_drop, hx16, hy16]
  obtain ⟨e2, hrest2⟩ := List.append_inj hrest1 hlen2
  injection hrest2 with hhead2 hrest2
  have hlen3 : (arrayBufferToHex ((x.drop 6).take 2)).length =
      (arrayBufferToHex ((y.drop 6).take 2)).length := by
    rw [length_arrayBufferToHex, length_arrayBufferToHex, List.length_take, List.length_take,
      List.length_drop, List.length_drop, hx16, hy16]
  obtain ⟨e3, hrest3⟩ := List.append_inj hrest2 hlen3
  injection hrest3 with hhead3 hrest3
  have hlen4 : (arrayBufferToHex ((x.drop 8).take 2)).length =
      (arrayBufferToHex ((y.drop 8).take 2)).length := by
    rw [length_arrayBufferToHex, length_arrayBufferToHex, List.length_take, List.length_take,
      List.length_drop, List.length_drop, hx16, hy16]
  obtain ⟨e4, hrest4⟩ := List.append_inj hrest3 hlen4
  injection hrest4 with hhead4 e5
  have wfTake : ∀ (z : Bytes), isBytes z → ∀ d t : Nat, isBytes ((z.drop d).take t) :=
    fun z hz d t b hb => hz b (List.mem_of_mem_drop (List.mem_of_mem_take hb))
  have m1 : (x.drop 0).take 4 = (y.drop 0).take 4 := by
    rw [List.drop_zero, List.drop_zero]
    exact arrayBufferToHex_inj (fun b hb => hxB b (List.mem_of_mem_take hb))
      (fun b hb => hyB b (List.mem_of_mem_take hb)) e1
  have m2 : (x.drop 4).take 2 = (y.drop 4).take 2 :=
    arrayBufferToHex_inj (wfTake x hxB 4 2) (wfTake y hyB 4 2) e2
  have m3 : (x.drop 6).take 2 = (y.drop 6).take 2 :=
    arrayBufferToHex_inj (wfTake x hxB 6 2) (wfTake y hyB 6 2) e3
  have m4 : (x.drop 8).take 2 = (y.drop 8).take 2 :=
    arrayBufferToHex_inj (wfTake x hxB 8 2) (wfTake y hyB 8 2) e4
  have m5 : (x.drop 10).take 6 = (y.drop 10).take 6 := by
    rw [List.take_of_length_le (by rw [List.length_drop, hx16]),
      List.take_of_length_le (by rw [List.length_drop, hy16])]
    exact arrayBufferToHex_inj (fun b hb => hxB b (List.mem_of_mem_drop hb))
      (fun b hb => hyB b (List.mem_of_mem_drop hb)) e5
  apply List.ext_getElem (by rw [hx16, hy16])
  intro i h1 h2
  rw [hx16] at h1
  by_cases c1 : i < 4
  · exact getElem_of_take_drop_eq m1 (by omega) (by omega) (by omega) (by omega)
  · by_cases c2 : i < 6
    · exact getElem_of_take_drop_eq m2 (by omega) (by omega) (by omega) (by omega)
    · by_cases c3 : i < 8
      · exact getElem_of_take_drop_eq m3 (by omega) (by omega) (by omega) (by omega)
      · by_cases c4 : i < 10
        · exact getElem_of_take_drop_eq m4 (by omega) (by omega) (by omega) (by omega)
        · exact getElem_of_take_drop_eq m5 (by omega) (by omega) (by omega) (by omega)

/-- C9 amended: every id generated by create is a version-4 UUID carrying
exactly the 122 random bits left after the six forced version and variant
bits - two 16-byte random draws give the same id precisely when they agree
after bit forcing - and each create call with valid fields persists its
record under the id it returns. -/
theorem uuid_122_bits_and_persist :
    (∀ b1 b2 : Bytes, b1.length = 16 → b2.length = 16 → isBytes b1 → isBytes b2 →
      (randomUUID b1 = randomUUID b2 ↔ uuidForce b1 = uuidForce b2)) ∧
    (∀ (enc iv id : Str) (ttl : Option Nat) (st : Store), enc ≠ [] → iv ≠ [] →
      (POST ⟨some enc, some iv, ttl⟩ id st).1 = .okId id ∧
      storeLookup id (POST ⟨some enc, some iv, ttl⟩ id st).2 =
        some ⟨ttl.getD 86400, ⟨enc, iv⟩⟩) := by
  constructor
  · intro b1 b2 h1 h2 hb1 hb2
    constructor
    · intro h
      exact uuidFormat_inj (by rw [uuidForce_length, h1]) (by rw [uuidForce_length, h2])
        (uuidForce_isBytes hb1) (uuidForce_isBytes hb2) h
    · intro h
      unfold randomUUID
      rw [h]
  · intro enc iv id ttl st henc hiv
    refine ⟨?_, ?_⟩
    · simp [POST, falsyStr, List.isEmpty_eq_false.mpr henc, List.isEmpty_eq_false.mpr hiv]
    · simp [POST, falsyStr, List.isEmpty_eq_false.mpr henc, List.isEmpty_eq_false.mpr hiv,
        storeLookup_redisSetex]

/-- Concrete id equality characterization and a concrete persisted
record. -/
theorem uuid_122_bits_and_persist_witness :
    (randomUUID (List.replicate 16 2) = randomUUID (List.replicate 16 2) ↔
      uuidForce (List.replicate 16 2) = uuidForce (List.replicate 16 2)) ∧
    storeLookup [99] (POST ⟨some [1], some [2], some 60⟩ [99] []).2 =
      some ⟨60, ⟨[1], [2]⟩⟩ :=
  ⟨uuid_122_bits_and_persist.1 (List.replicate 16 2) (List.replicate 16 2) (by decide)
      (by decide) (by decide) (by decide),
    (uuid_122_bits_and_persist.2 [1] [2] [99] (some 60) [] (by decide) (by decide)).2⟩
